import Mathlib

/-
  Verification of the bencode decoder (src/bencode/src/main.rs).

  The embedding models the buffer as a `List Nat` of byte values. Machine
  arithmetic is modelled explicitly: i32 accumulation wraps two's-complement
  (release-mode semantics, matching the wraparound noted in the design notes),
  usize accumulation wraps at 2^64. Rust `unwrap()` calls and slice-bounds
  violations are modelled as an explicit `panic` outcome so that
  panic-freedom claims are genuine theorems rather than artifacts.
-/

set_option maxRecDepth 8000

namespace Bencode

/-- Error taxonomy of the decoder (enum DecodeError). Offsets are byte
offsets into the buffer; `InvalidToken` carries the offending byte (the
source stores it cast to char). -/
inductive DecodeError
  | DuplicateStartToken (pos : Nat)
  | InvalidToken (pos : Nat) (c : Nat)
  | InvalidLength (pos : Nat)
  | ByteStrEOF (pos : Nat)
  | NoEndToken (pos : Nat)
  | NoStartToken (pos : Nat)
  | InvalidEndToken (pos : Nat)
  | InvalidDict (pos : Nat)
  | Empty (pos : Nat)
  | LeadingZero (pos : Nat)

/-- Decoded value tree (enum BencodeValue). A dict is represented the way a
BTreeMap<Vec<u8>, BencodeValue> is observed: an association list kept sorted
by lexicographic byte order with no duplicate keys. -/
inductive BencodeValue
  | Int (n : Int)
  | ByteStr (s : List Nat)
  | List (l : List BencodeValue)
  | Dict (d : List (List Nat × BencodeValue))

/-- Two's-complement wrap of an i32 computation (2^31 = 2147483648,
2^32 = 4294967296): release-mode Rust overflow semantics. -/
def wrap32 (n : Int) : Int := (n + 2147483648) % 4294967296 - 2147483648

/-- Wrap of a usize computation at 2^64 = 18446744073709551616. -/
def wrap64 (n : Nat) : Nat := n % 18446744073709551616

/-- Lexicographic order on byte sequences, as Ord on Vec<u8>. -/
def bytesLt : List Nat → List Nat → Bool
  | [], [] => false
  | [], _ :: _ => true
  | _ :: _, [] => false
  | a :: as, b :: bs => if a < b then true else if b < a then false else bytesLt as bs

/-- BTreeMap::insert on the sorted association list: keeps keys sorted and
replaces the previous binding of an existing key (last write wins). -/
def btreeInsert (k : List Nat) (v : BencodeValue) :
    List (List Nat × BencodeValue) → List (List Nat × BencodeValue)
  | [] => [(k, v)]
  | (k2, v2) :: rest =>
    if bytesLt k k2 then (k, v) :: (k2, v2) :: rest
    else if k = k2 then (k, v) :: rest
    else (k2, v2) :: btreeInsert k v rest

/-- BTreeMap::get on the association list. -/
def btreeLookup (k : List Nat) : List (List Nat × BencodeValue) → Option BencodeValue
  | [] => none
  | (k2, v2) :: rest => if k = k2 then some v2 else btreeLookup k rest

/-- Whether a value is a ByteStr (the only legal dict key shape). -/
def isByteStrVal : BencodeValue → Bool
  | .ByteStr _ => true
  | _ => false

/-- One iteration of the dict-building loop body: insert the pair when the
key decoded as a ByteStr, silently skip the pair otherwise. -/
def insertKeyVal (k v : BencodeValue) (m : List (List Nat × BencodeValue)) :
    List (List Nat × BencodeValue) :=
  match k with
  | .ByteStr key => btreeInsert key v m
  | _ => m

/-- The `while let (Some(key_item), Some(val_item))` loop of decode: fold the
accumulated items pairwise (item 0 = key, item 1 = value, ...) into the map. -/
def foldPairs : List BencodeValue → List (List Nat × BencodeValue) →
    List (List Nat × BencodeValue)
  | k :: v :: rest, m => foldPairs rest (insertKeyVal k v m)
  | _, m => m

/-- Scan loop of decode_int. `rest` is the buffer suffix from `pos` on
(`rest = enc_str.drop pos`), carried so the recursion is structural; running
out of `rest` is exactly `pos` reaching the buffer end. Byte values:
105 = i, 48..57 = digits, 45 = minus, 101 = e. -/
def decodeIntGo (start_pos pos : Nat) (rest : List Nat) (started : Bool)
    (value sign : Int) : Except DecodeError (Int × Nat) :=
  match rest with
  | [] => .error (.NoEndToken pos)
  | c :: rs =>
    if c = 105 then
      if started then .error (.DuplicateStartToken pos)
      else decodeIntGo start_pos (pos + 1) rs true value sign
    else if 48 ≤ c ∧ c ≤ 57 then
      if pos - start_pos > 2 ∧ value = 0 then .error (.LeadingZero pos)
      else decodeIntGo start_pos (pos + 1) rs started
        (wrap32 (value * 10 + ((c : Int) - 48))) sign
    else if c = 45 then
      if sign = -1 then .error (.InvalidToken pos c)
      else decodeIntGo start_pos (pos + 1) rs started value (-1)
    else if c = 101 then
      if pos - start_pos ≤ 1 then .error (.Empty pos)
      else .ok (wrap32 (value * sign), pos + 1 - start_pos)
    else .error (.InvalidToken pos c)

/-- fn decode_int(enc_str: &[u8], start_pos: usize) -> Result<(i32, usize), DecodeError>. -/
def decode_int (enc_str : List Nat) (start_pos : Nat) : Except DecodeError (Int × Nat) :=
  decodeIntGo start_pos start_pos (enc_str.drop start_pos) false 0 1

/-- Kinds of panic the embedding distinguishes: an `unwrap()` on an empty
scope stack, a slice-bounds violation, and the (proven unreachable) fuel
exhaustion of the modelled scan loop. -/
inductive PanicKind
  | stackUnderflow
  | sliceBounds
  | fuelOut
deriving DecidableEq

/-- Outcome of running Rust code that can also panic. -/
inductive RResult (α : Type)
  | ok (a : α)
  | err (e : DecodeError)
  | panic (k : PanicKind)

/-- Step 2 of decode_bytestr after the colon: `pos` points just past the
colon, `rest` is the suffix there, `len` the whole buffer length. The bounds
check compares the wrapped usize sum `pos + str_sz` with `len` exactly as the
source does; a slice whose wrapped end lies before `pos` panics. -/
def bytestrFinish (len start_pos pos : Nat) (rest : List Nat) (str_sz : Nat) :
    RResult (List Nat × Nat) :=
  if str_sz = 0 then .ok ([], pos - start_pos)
  else
    if wrap64 (pos + str_sz) > len then .err (.ByteStrEOF pos)
    else if pos > wrap64 (pos + str_sz) then .panic .sliceBounds
    else .ok (rest.take str_sz, pos + str_sz - start_pos)

/-- Length-scanning loop of decode_bytestr (58 = colon). `rest` is the buffer
suffix from `pos` (structural recursion); `str_sz` accumulates as a usize. -/
def decodeBytestrGo (len start_pos pos : Nat) (rest : List Nat) (str_sz : Nat) :
    RResult (List Nat × Nat) :=
  match rest with
  | [] => .err (.InvalidLength pos)
  | c :: rs =>
    if 48 ≤ c ∧ c ≤ 57 then
      if c = 48 ∧ str_sz = 0 ∧ start_pos ≠ pos then .err (.LeadingZero pos)
      else decodeBytestrGo len start_pos (pos + 1) rs (wrap64 (str_sz * 10 + (c - 48)))
    else if c = 58 then
      bytestrFinish len start_pos (pos + 1) rs str_sz
    else .err (.InvalidToken pos c)

/-- fn decode_bytestr(enc_str: &[u8], start_pos: usize) -> Result<(Vec<u8>, usize), DecodeError>. -/
def decode_bytestr (enc_str : List Nat) (start_pos : Nat) : RResult (List Nat × Nat) :=
  decodeBytestrGo enc_str.length start_pos start_pos (enc_str.drop start_pos) 0

/-- enum ScopeType. -/
inductive ScopeType
  | Root
  | List
  | Dict
deriving DecidableEq

/-- struct Scope. -/
structure Scope where
  stype : ScopeType
  items : List BencodeValue

/-- stack.last_mut().unwrap().items.push(v): the head of the list is the top
of the Vec; `none` models the unwrap panicking on an empty stack. -/
def pushTop (stack : List Scope) (v : BencodeValue) : Option (List Scope) :=
  match stack with
  | [] => none
  | s :: rest => some ({ s with items := s.items ++ [v] } :: rest)

/-- Result of one iteration of the scan loop of decode: either the loop
returns (result or panic), or it continues after consuming `k` bytes with an
updated stack. -/
inductive StepOut
  | done (r : RResult (List BencodeValue))
  | cont (k : Nat) (stack : List Scope)

/-- One iteration of the scan loop of decode, dispatching on the byte `c` at
the cursor (105 = i, 48..57 = digits, 108 = l, 100 = d, 101 = e). -/
def decodeStep (buf : List Nat) (pos c : Nat) (stack : List Scope) : StepOut :=
  if c = 105 then
    match decode_int buf pos with
    | .error e => .done (.err e)
    | .ok (item, item_len) =>
      match pushTop stack (.Int item) with
      | none => .done (.panic .stackUnderflow)
      | some stack2 => .cont item_len stack2
  else if 48 ≤ c ∧ c ≤ 57 then
    match decode_bytestr buf pos with
    | .panic k => .done (.panic k)
    | .err e => .done (.err e)
    | .ok (item, item_len) =>
      match pushTop stack (.ByteStr item) with
      | none => .done (.panic .stackUnderflow)
      | some stack2 => .cont item_len stack2
  else if c = 108 then .cont 1 (⟨ScopeType.List, []⟩ :: stack)
  else if c = 100 then .cont 1 (⟨ScopeType.Dict, []⟩ :: stack)
  else if c = 101 then
    match stack with
    | [] => .done (.panic .stackUnderflow)
    | top :: stack2 =>
      match top.stype with
      | .List =>
        match pushTop stack2 (.List top.items) with
        | none => .done (.panic .stackUnderflow)
        | some s2 => .cont 1 s2
      | .Dict =>
        if top.items.length % 2 ≠ 0 then .done (.err (.InvalidDict pos))
        else
          match pushTop stack2 (.Dict (foldPairs top.items [])) with
          | none => .done (.panic .stackUnderflow)
          | some s2 => .cont 1 s2
      | .Root => .done (.err (.InvalidEndToken pos))
  else .done (.err (.InvalidToken pos c))

/-- Scan loop of decode. `rest` is the buffer suffix at the cursor
(`rest = buf.drop pos`). The fuel is a modelling artifact making the
recursion structural; `decode` supplies `buf.length + 1` and the fuel-out
outcome is proven unreachable below. On buffer exhaustion: unclosed scopes
are a NoEndToken error, otherwise `stack.pop().unwrap().items` is returned. -/
def decodeLoop (buf : List Nat) (pos : Nat) (rest : List Nat) (stack : List Scope) :
    Nat → RResult (List BencodeValue)
  | 0 => .panic .fuelOut
  | fuel + 1 =>
    match rest with
    | [] =>
      if stack.length > 1 then .err (.NoEndToken pos)
      else
        match stack with
        | [] => .panic .stackUnderflow
        | s :: _ => .ok s.items
    | c :: rs =>
      match decodeStep buf pos c stack with
      | .done r => r
      | .cont k stack2 => decodeLoop buf (pos + k) ((c :: rs).drop k) stack2 fuel

/-- fn decode(buf: &[u8]) -> Result<Vec<BencodeValue>, DecodeError>. -/
def decode (buf : List Nat) : RResult (List BencodeValue) :=
  decodeLoop buf 0 buf [⟨ScopeType.Root, []⟩] (buf.length + 1)

/-- Whether an error is the NoStartToken variant. -/
def errIsNoStart : DecodeError → Bool
  | .NoStartToken _ => true
  | _ => false

/-- Whether a possibly-panicking outcome is a NoStartToken error. -/
def rresNoStart {α : Type} : RResult α → Bool
  | .err e => errIsNoStart e
  | _ => false

/-- Whether a Result is a NoStartToken error. -/
def exceptNoStart {α : Type} : Except DecodeError α → Bool
  | .error e => errIsNoStart e
  | _ => false

/-- Whether an outcome is a panic of the given kind. -/
def isPanicOf {α : Type} (r : RResult α) (k : PanicKind) : Bool :=
  match r with
  | .panic k2 => decide (k2 = k)
  | _ => false

/-- Forward progress of decode_int: a successful parse consumed at least one
byte (errors impose nothing). -/
def intProgress : Except DecodeError (Int × Nat) → Bool
  | .ok (_, n) => decide (1 ≤ n)
  | .error _ => true

/-- Forward progress of decode_bytestr: a successful parse consumed at least
one byte. -/
def bstrProgress : RResult (List Nat × Nat) → Bool
  | .ok (_, n) => decide (1 ≤ n)
  | _ => true

/-- Well-formedness of the scope stack: nonempty, the bottom frame is the
Root frame, and no other frame is a Root (only List and Dict frames are ever
pushed). The head of the list is the top of the stack. -/
def goodStack : List Scope → Prop
  | [] => False
  | [s] => s.stype = ScopeType.Root
  | s :: rest => s.stype ≠ ScopeType.Root ∧ goodStack rest

lemma goodStack_ne_nil {stack : List Scope} (h : goodStack stack) : stack ≠ [] := by
  cases stack with
  | nil => exact absurd h (by simp [goodStack])
  | cons s rest => simp

lemma goodStack_push (s : Scope) (tl : List Scope) (v : BencodeValue)
    (h : goodStack (s :: tl)) : goodStack ({ s with items := s.items ++ [v] } :: tl) := by
  cases tl with
  | nil => simpa [goodStack] using h
  | cons t tl2 => simpa [goodStack] using h

lemma btreeLookup_insert (k : List Nat) (v : BencodeValue) :
    ∀ m, btreeLookup k (btreeInsert k v m) = some v := by
  intro m
  induction m with
  | nil => simp [btreeInsert, btreeLookup]
  | cons p rest ih =>
    obtain ⟨k2, v2⟩ := p
    by_cases h1 : bytesLt k k2
    · simp [btreeInsert, h1, btreeLookup]
    · by_cases h2 : k = k2
      · subst h2
        simp only [btreeInsert, if_pos rfl]
        split
        · simp [btreeLookup]
        · simp [btreeLookup]
      · simp [btreeInsert, h1, h2, btreeLookup, ih]

lemma foldPairs_append (ps : List BencodeValue) (m : List (List Nat × BencodeValue))
    (k : List Nat) (v : BencodeValue) (h : ps.length % 2 = 0) :
    foldPairs (ps ++ [BencodeValue.ByteStr k, v]) m = btreeInsert k v (foldPairs ps m) := by
  match ps with
  | [] => simp [foldPairs, insertKeyVal]
  | [a] => simp [Nat.mod_self] at h
  | a :: b :: tl =>
    have h2 : tl.length % 2 = 0 := by
      simp only [List.length_cons] at h
      omega
    simpa [foldPairs] using foldPairs_append tl (insertKeyVal a b m) k v h2

lemma decodeIntGo_safe (rest : List Nat) :
    ∀ (start_pos pos : Nat) (started : Bool) (value sign : Int), start_pos ≤ pos →
    exceptNoStart (decodeIntGo start_pos pos rest started value sign) = false ∧
    intProgress (decodeIntGo start_pos pos rest started value sign) = true := by
  induction rest with
  | nil =>
    intro s p st v sg h
    simp [decodeIntGo, exceptNoStart, errIsNoStart, intProgress]
  | cons c rs ih =>
    intro s p st v sg h
    simp only [decodeIntGo]
    split
    · split
      · simp [exceptNoStart, errIsNoStart, intProgress]
      · exact ih s (p + 1) true v sg (by omega)
    · split
      · split
        · simp [exceptNoStart, errIsNoStart, intProgress]
        · exact ih s (p + 1) st _ sg (by omega)
      · split
        · split
          · simp [exceptNoStart, errIsNoStart, intProgress]
          · exact ih s (p + 1) st v (-1) (by omega)
        · split
          · split
            · simp [exceptNoStart, errIsNoStart, intProgress]
            · refine ⟨rfl, ?_⟩
              simp only [intProgress, decide_eq_true_eq]
              omega
          · simp [exceptNoStart, errIsNoStart, intProgress]

lemma decode_int_safe (enc_str : List Nat) (start_pos : Nat) :
    exceptNoStart (decode_int enc_str start_pos) = false ∧
    intProgress (decode_int enc_str start_pos) = true :=
  decodeIntGo_safe (enc_str.drop start_pos) start_pos start_pos false 0 1 (Nat.le_refl _)

lemma bytestrFinish_safe (len start_pos pos : Nat) (rest : List Nat) (str_sz : Nat)
    (h : start_pos < pos) :
    rresNoStart (bytestrFinish len start_pos pos rest str_sz) = false ∧
    bstrProgress (bytestrFinish len start_pos pos rest str_sz) = true ∧
    isPanicOf (bytestrFinish len start_pos pos rest str_sz) PanicKind.fuelOut = false ∧
    isPanicOf (bytestrFinish len start_pos pos rest str_sz) PanicKind.stackUnderflow = false := by
  simp only [bytestrFinish]
  split
  · refine ⟨rfl, ?_, rfl, rfl⟩
    simp only [bstrProgress, decide_eq_true_eq]
    omega
  · split
    · simp [rresNoStart, errIsNoStart, bstrProgress, isPanicOf]
    · split
      · simp [rresNoStart, bstrProgress, isPanicOf]
      · refine ⟨rfl, ?_, rfl, rfl⟩
        simp only [bstrProgress, decide_eq_true_eq]
        omega

lemma decodeBytestrGo_safe (rest : List Nat) :
    ∀ (len start_pos pos str_sz : Nat), start_pos ≤ pos →
    rresNoStart (decodeBytestrGo len start_pos pos rest str_sz) = false ∧
    bstrProgress (decodeBytestrGo len start_pos pos rest str_sz) = true ∧
    isPanicOf (decodeBytestrGo len start_pos pos rest str_sz) PanicKind.fuelOut = false ∧
    isPanicOf (decodeBytestrGo len start_pos pos rest str_sz) PanicKind.stackUnderflow = false := by
  induction rest with
  | nil =>
    intro len s p sz h
    simp [decodeBytestrGo, rresNoStart, errIsNoStart, bstrProgress, isPanicOf]
  | cons c rs ih =>
    intro len s p sz h
    simp only [decodeBytestrGo]
    split
    · split
      · simp [rresNoStart, errIsNoStart, bstrProgress, isPanicOf]
      · exact ih len s (p + 1) _ (by omega)
    · split
      · exact bytestrFinish_safe len s (p + 1) rs sz (by omega)
      · simp [rresNoStart, errIsNoStart, bstrProgress, isPanicOf]

lemma decode_bytestr_safe (enc_str : List Nat) (start_pos : Nat) :
    rresNoStart (decode_bytestr enc_str start_pos) = false ∧
    bstrProgress (decode_bytestr enc_str start_pos) = true ∧
    isPanicOf (decode_bytestr enc_str start_pos) PanicKind.fuelOut = false ∧
    isPanicOf (decode_bytestr enc_str start_pos) PanicKind.stackUnderflow = false :=
  decodeBytestrGo_safe (enc_str.drop start_pos) enc_str.length start_pos start_pos 0
    (Nat.le_refl _)

/-- Safety contract of one scan-loop iteration: a returning iteration is
neither a stack-underflow panic nor a fuel-out artifact nor a NoStartToken
error, and a continuing iteration consumed at least one byte and kept the
scope stack well-formed. -/
def stepOk : StepOut → Prop
  | .done r => rresNoStart r = false ∧ isPanicOf r PanicKind.fuelOut = false ∧
      isPanicOf r PanicKind.stackUnderflow = false
  | .cont k stack2 => 1 ≤ k ∧ goodStack stack2

lemma decodeStep_safe (buf : List Nat) (pos c : Nat) (stack : List Scope)
    (hg : goodStack stack) : stepOk (decodeStep buf pos c stack) := by
  obtain ⟨s0, tl0, rfl⟩ : ∃ s0 tl0, stack = s0 :: tl0 := by
    cases stack with
    | nil => exact absurd hg (by simp [goodStack])
    | cons a b => exact ⟨a, b, rfl⟩
  simp only [decodeStep]
  split
  · have hint := decode_int_safe buf pos
    cases hdi : decode_int buf pos with
    | error e =>
      rw [hdi] at hint
      simp only [exceptNoStart] at hint
      exact ⟨hint.1, rfl, rfl⟩
    | ok p =>
      obtain ⟨item, item_len⟩ := p
      rw [hdi] at hint
      simp only [intProgress, decide_eq_true_eq] at hint
      simp only [pushTop]
      exact ⟨hint.2, goodStack_push s0 tl0 _ hg⟩
  · split
    · have hbs := decode_bytestr_safe buf pos
      cases hdb : decode_bytestr buf pos with
      | panic k =>
        rw [hdb] at hbs
        exact ⟨rfl, hbs.2.2.1, hbs.2.2.2⟩
      | err e =>
        rw [hdb] at hbs
        simp only [rresNoStart] at hbs
        exact ⟨hbs.1, rfl, rfl⟩
      | ok p =>
        obtain ⟨item, item_len⟩ := p
        rw [hdb] at hbs
        simp only [bstrProgress, decide_eq_true_eq] at hbs
        simp only [pushTop]
        exact ⟨hbs.2.1, goodStack_push s0 tl0 _ hg⟩
    · split
      · exact ⟨Nat.le_refl 1, by simp only [goodStack]; exact ⟨by decide, hg⟩⟩
      · split
        · exact ⟨Nat.le_refl 1, by simp only [goodStack]; exact ⟨by decide, hg⟩⟩
        · split
          · cases hst : s0.stype with
            | Root =>
              exact ⟨rfl, rfl, rfl⟩
            | List =>
              cases tl0 with
              | nil =>
                simp only [goodStack, hst] at hg
                exact absurd hg (by decide)
              | cons t tt =>
                simp only [goodStack, hst] at hg
                dsimp only [pushTop]
                exact ⟨Nat.le_refl 1, goodStack_push t tt _ hg.2⟩
            | Dict =>
              cases tl0 with
              | nil =>
                simp only [goodStack, hst] at hg
                exact absurd hg (by decide)
              | cons t tt =>
                simp only [goodStack, hst] at hg
                dsimp only [pushTop]
                split
                · exact ⟨rfl, rfl, rfl⟩
                · exact ⟨Nat.le_refl 1, goodStack_push t tt _ hg.2⟩
          · exact ⟨rfl, rfl, rfl⟩

lemma decodeLoop_safe (fuel : Nat) :
    ∀ (buf : List Nat) (pos : Nat) (rest : List Nat) (stack : List Scope),
    goodStack stack → rest.length < fuel →
    rresNoStart (decodeLoop buf pos rest stack fuel) = false ∧
    isPanicOf (decodeLoop buf pos rest stack fuel) PanicKind.fuelOut = false ∧
    isPanicOf (decodeLoop buf pos rest stack fuel) PanicKind.stackUnderflow = false := by
  induction fuel with
  | zero =>
    intro buf pos rest stack hg hl
    exact absurd hl (by omega)
  | succ f ih =>
    intro buf pos rest stack hg hl
    cases rest with
    | nil =>
      simp only [decodeLoop]
      split
      · simp [rresNoStart, errIsNoStart, isPanicOf]
      · obtain ⟨s0, tl0, rfl⟩ : ∃ s0 tl0, stack = s0 :: tl0 := by
          cases stack with
          | nil => exact absurd hg (by simp [goodStack])
          | cons a b => exact ⟨a, b, rfl⟩
        exact ⟨rfl, rfl, rfl⟩
    | cons c rs =>
      simp only [decodeLoop]
      have hstep := decodeStep_safe buf pos c stack hg
      cases hs : decodeStep buf pos c stack with
      | done r =>
        rw [hs] at hstep
        simp only [stepOk] at hstep
        exact hstep
      | cont k stack2 =>
        rw [hs] at hstep
        simp only [stepOk] at hstep
        refine ih buf (pos + k) ((c :: rs).drop k) stack2 hstep.2 ?_
        have hk := hstep.1
        have hlen : ((c :: rs).drop k).length = rs.length + 1 - k := by
          simp [List.length_drop]
        rw [hlen]
        simp only [List.length_cons] at hl
        omega

/-- The decoder entry point runs on a well-formed initial stack with enough
fuel, so the loop safety invariant applies to every input buffer. -/
lemma decode_safe (buf : List Nat) :
    rresNoStart (decode buf) = false ∧
    isPanicOf (decode buf) PanicKind.fuelOut = false ∧
    isPanicOf (decode buf) PanicKind.stackUnderflow = false :=
  decodeLoop_safe (buf.length + 1) buf 0 buf [⟨ScopeType.Root, []⟩]
    (by simp [goodStack]) (by omega)

/-- Outside the usize-overflow regime of pos + str_sz, a declared length
exceeding the remaining buffer is reported as ByteStrEOF carrying the offset
just past the colon. -/
lemma bytestrFinish_eof (len start_pos pos : Nat) (rest : List Nat) (str_sz : Nat)
    (h0 : str_sz ≠ 0) (hw : pos + str_sz < 18446744073709551616)
    (h : len < pos + str_sz) :
    bytestrFinish len start_pos pos rest str_sz = .err (.ByteStrEOF pos) := by
  have hm : (pos + str_sz) % 18446744073709551616 = pos + str_sz := Nat.mod_eq_of_lt hw
  simp only [bytestrFinish, wrap64, hm]
  rw [if_neg h0, if_pos (by omega)]

/-- Claim C1: the no-leading-zero rule for integers. The code does not
implement it as claimed: the guard fires only while the accumulated value is
still zero more than two bytes past the start, so decode_int accepts "i042e"
as Ok(42, 5) instead of failing with LeadingZero (only runs of several
zeros, such as "i004e", trip it), while decode("i0e") does succeed with
Int(0) consuming 3 bytes. -/
theorem int_leading_zero_bug :
    decode_int [105, 48, 52, 50, 101] 0 = .ok (42, 5) ∧
    decode_int [105, 48, 48, 52, 101] 0 = .error (.LeadingZero 3) ∧
    decode_int [105, 48, 101] 0 = .ok (0, 3) ∧
    decode [105, 48, 101] = .ok [.Int 0] :=
  ⟨rfl, rfl, rfl, rfl⟩

/-- Claim C2: the no-leading-zero rule for byte-string lengths. The code
does not reject a nonzero digit after a leading zero: decode_bytestr accepts
"04:abcd" as Ok("abcd", 7) instead of failing with LeadingZero (only a
second zero digit, as in "00:", trips the guard), while a length of exactly
0 succeeds with the empty byte sequence consuming just the two bytes "0:". -/
theorem bytestr_leading_zero_bug :
    decode_bytestr [48, 52, 58, 97, 98, 99, 100] 0 = .ok ([97, 98, 99, 100], 7) ∧
    decode_bytestr [48, 48, 58] 0 = .err (.LeadingZero 1) ∧
    decode_bytestr [48, 58] 0 = .ok ([], 2) ∧
    decode [48, 58] = .ok [.ByteStr []] :=
  ⟨rfl, rfl, rfl, rfl⟩

/-- Claim C3: empty integer magnitude. "ie" fails with Empty at offset 1 as
claimed, but the guard measures raw width from the start sigil, so the
signed empty magnitude "i-e" slips through and decodes as Ok(0, 3) instead
of failing with Empty. -/
theorem int_empty_magnitude_bug :
    decode_int [105, 101] 0 = .error (.Empty 1) ∧
    decode_int [105, 45, 101] 0 = .ok (0, 3) ∧
    decode [105, 45, 101] = .ok [.Int 0] :=
  ⟨rfl, rfl, rfl⟩

/-- Claim C4: closing a Dict frame with an odd item count fails with
InvalidDict at the current offset; with an even count the items fold
positionally into the map, a pair whose key is not a ByteStr is silently
dropped, and a duplicate key silently overwrites so the last occurrence
wins; concrete runs: decode("di1ee") fails with InvalidDict 4,
decode("d1:ai1e1:ai2ee") keeps the later binding, decode("di1ei2ee")
drops the non-string-keyed pair without error. -/
theorem dict_close_spec :
    (∀ (buf : List Nat) (pos : Nat) (items : List BencodeValue) (stack : List Scope),
      items.length % 2 = 1 →
      decodeStep buf pos 101 (⟨ScopeType.Dict, items⟩ :: stack) =
        .done (.err (.InvalidDict pos))) ∧
    (∀ (buf : List Nat) (pos : Nat) (items : List BencodeValue) (s : Scope)
       (stack : List Scope), items.length % 2 = 0 →
      decodeStep buf pos 101 (⟨ScopeType.Dict, items⟩ :: s :: stack) =
        .cont 1 ({ s with items := s.items ++ [BencodeValue.Dict (foldPairs items [])] }
          :: stack)) ∧
    (∀ (ps : List BencodeValue) (k : List Nat) (v : BencodeValue)
       (m : List (List Nat × BencodeValue)), ps.length % 2 = 0 →
      btreeLookup k (foldPairs (ps ++ [BencodeValue.ByteStr k, v]) m) = some v) ∧
    (∀ (kk vv : BencodeValue) (rest : List BencodeValue)
       (m : List (List Nat × BencodeValue)), isByteStrVal kk = false →
      foldPairs (kk :: vv :: rest) m = foldPairs rest m) ∧
    decode [100, 105, 49, 101, 101] = .err (.InvalidDict 4) ∧
    decode [100, 49, 58, 97, 105, 49, 101, 49, 58, 97, 105, 50, 101, 101] =
      .ok [.Dict [([97], .Int 2)]] ∧
    decode [100, 105, 49, 101, 105, 50, 101, 101] = .ok [.Dict []] := by
  refine ⟨?_, ?_, ?_, ?_, rfl, rfl, rfl⟩
  · intro buf pos items stack h
    simp only [decodeStep]
    rw [if_neg (by decide), if_neg (by decide), if_neg (by decide), if_neg (by decide),
      if_pos trivial]
    rw [if_pos (by omega)]
  · intro buf pos items s stack h
    simp only [decodeStep]
    rw [if_neg (by decide), if_neg (by decide), if_neg (by decide), if_neg (by decide),
      if_pos trivial]
    rw [if_neg (by omega)]
    rfl
  · intro ps k v m h
    rw [foldPairs_append ps m k v h, btreeLookup_insert]
  · intro kk vv rest m h
    cases kk with
    | ByteStr s => simp [isByteStrVal] at h
    | Int n => rfl
    | List l => rfl
    | Dict d => rfl

/-- Witness for dict_close_spec at concrete inputs. -/
theorem dict_close_spec_witness :
    decodeStep [] 4 101 [⟨ScopeType.Dict, [BencodeValue.Int 1]⟩, ⟨ScopeType.Root, []⟩] =
      .done (.err (.InvalidDict 4)) ∧
    decodeStep [] 4 101 [⟨ScopeType.Dict, []⟩, ⟨ScopeType.Root, []⟩] =
      .cont 1 [⟨ScopeType.Root, [BencodeValue.Dict (foldPairs [] [])]⟩] ∧
    btreeLookup [97] (foldPairs ([BencodeValue.ByteStr [97], BencodeValue.Int 1] ++
      [BencodeValue.ByteStr [97], BencodeValue.Int 2]) []) = some (BencodeValue.Int 2) ∧
    foldPairs [BencodeValue.Int 9, BencodeValue.Int 8] [] = foldPairs [] [] :=
  ⟨dict_close_spec.1 [] 4 [BencodeValue.Int 1] [⟨ScopeType.Root, []⟩] rfl,
   dict_close_spec.2.1 [] 4 [] ⟨ScopeType.Root, []⟩ [] rfl,
   dict_close_spec.2.2.1 [BencodeValue.ByteStr [97], BencodeValue.Int 1] [97]
     (BencodeValue.Int 2) [] rfl,
   dict_close_spec.2.2.2.1 (BencodeValue.Int 9) (BencodeValue.Int 8) [] [] rfl⟩

/-- Claim C5: decode is claimed total and panic-free for every buffer, but
the byte-string bounds check computes pos + declared_length in usize: on the
21-byte input "18446744073709551615:" the sum wraps below pos, the check
passes, and the payload slice panics (a debug build panics on the
overflowing addition itself), so decode does panic on this input. -/
theorem decode_overflow_panic :
    decode [49, 56, 52, 52, 54, 55, 52, 52, 48, 55, 51, 55, 48, 57, 53, 53, 49, 54, 49,
      53, 58] = .panic .sliceBounds := rfl

/-- Claim C6: the scope stack never underflows: on every input, every
modelled stack access (push, pop, top) happens on a nonempty stack, and an
end sigil with only the Root frame open aborts with InvalidEndToken at that
offset, so decode("e") fails with InvalidEndToken at offset 0. -/
theorem stack_never_underflows :
    (∀ buf : List Nat, isPanicOf (decode buf) PanicKind.stackUnderflow = false) ∧
    decode [101] = .err (.InvalidEndToken 0) :=
  ⟨fun buf => (decode_safe buf).2.2, rfl⟩

/-- Claim C7: reaching the end of the buffer with any frame beyond Root
still open yields NoEndToken at the current (end-of-buffer) offset;
decode("d3:heyi69e") fails with NoEndToken 10 while decode("d3:heyi69ee")
succeeds with the singleton dict. -/
theorem unterminated_aggregate :
    (∀ (buf : List Nat) (pos : Nat) (stack : List Scope) (fuel : Nat),
      1 < stack.length →
      decodeLoop buf pos [] stack (fuel + 1) = .err (.NoEndToken pos)) ∧
    decode [100, 51, 58, 104, 101, 121, 105, 54, 57, 101] = .err (.NoEndToken 10) ∧
    decode [100, 51, 58, 104, 101, 121, 105, 54, 57, 101, 101] =
      .ok [.Dict [([104, 101, 121], .Int 69)]] := by
  refine ⟨?_, rfl, rfl⟩
  intro buf pos stack fuel h
  simp only [decodeLoop]
  rw [if_pos h]

/-- Witness for unterminated_aggregate on a stack with one open List frame. -/
theorem unterminated_aggregate_witness :
    1 < ([⟨ScopeType.List, []⟩, ⟨ScopeType.Root, []⟩] : List Scope).length ∧
    decodeLoop [] 0 [] [⟨ScopeType.List, []⟩, ⟨ScopeType.Root, []⟩] 1 =
      .err (.NoEndToken 0) :=
  ⟨by decide, unterminated_aggregate.1 [] 0 [⟨ScopeType.List, []⟩, ⟨ScopeType.Root, []⟩] 0
    (by decide)⟩

/-- Claim C8: a declared length exceeding the remaining bytes yields
ByteStrEOF at the offset just past the colon — decode("5:ab") fails with
ByteStrEOF at offset 2 — except that when pos + length overflows usize the
code panics on the payload slice instead of returning the error (same
defect exhibited for C5). -/
theorem bytestr_truncated_payload :
    decode [53, 58, 97, 98] = .err (.ByteStrEOF 2) ∧
    decode_bytestr [53, 58, 97, 98] 0 = .err (.ByteStrEOF 2) ∧
    decode_bytestr [49, 56, 52, 52, 54, 55, 52, 52, 48, 55, 51, 55, 48, 57, 53, 53, 49,
      54, 49, 53, 58] 0 = .panic .sliceBounds :=
  ⟨rfl, rfl, rfl⟩

/-- Claim C9: decode terminates on every input: the scan loop never exhausts
a fuel of buffer length + 1 because every iteration either returns or
strictly advances the cursor — each leaf decoder consumes at least one byte
on success and every continuing step consumes at least one byte. -/
theorem decode_terminates :
    (∀ buf : List Nat, isPanicOf (decode buf) PanicKind.fuelOut = false) ∧
    (∀ (enc_str : List Nat) (start_pos : Nat),
      intProgress (decode_int enc_str start_pos) = true) ∧
    (∀ (enc_str : List Nat) (start_pos : Nat),
      bstrProgress (decode_bytestr enc_str start_pos) = true) ∧
    (∀ (buf : List Nat) (pos c : Nat) (stack stack2 : List Scope) (k : Nat),
      goodStack stack → decodeStep buf pos c stack = StepOut.cont k stack2 → 1 ≤ k) := by
  refine ⟨fun buf => (decode_safe buf).2.1,
    fun e s => (decode_int_safe e s).2,
    fun e s => (decode_bytestr_safe e s).2.1, ?_⟩
  intro buf pos c stack stack2 k hg hs
  have h := decodeStep_safe buf pos c stack hg
  rw [hs] at h
  simp only [stepOk] at h
  exact h.1

/-- Witness for decode_terminates at concrete inputs. -/
theorem decode_terminates_witness :
    isPanicOf (decode [105, 48, 101]) PanicKind.fuelOut = false ∧
    intProgress (decode_int [105, 48, 101] 0) = true ∧
    bstrProgress (decode_bytestr [48, 58] 0) = true ∧
    1 ≤ 1 :=
  ⟨decode_terminates.1 [105, 48, 101],
   decode_terminates.2.1 [105, 48, 101] 0,
   decode_terminates.2.2.1 [48, 58] 0,
   decode_terminates.2.2.2 [] 0 108 [⟨ScopeType.Root, []⟩]
     (⟨ScopeType.List, []⟩ :: [⟨ScopeType.Root, []⟩]) 1 (by simp [goodStack]) rfl⟩

/-- Claim C10: the NoStartToken variant is declared in the error taxonomy
but unreachable: on every input, neither decode nor either leaf decoder
ever returns it. -/
theorem no_start_token_unreachable :
    (∀ buf : List Nat, rresNoStart (decode buf) = false) ∧
    (∀ (enc_str : List Nat) (start_pos : Nat),
      exceptNoStart (decode_int enc_str start_pos) = false) ∧
    (∀ (enc_str : List Nat) (start_pos : Nat),
      rresNoStart (decode_bytestr enc_str start_pos) = false) :=
  ⟨fun buf => (decode_safe buf).1,
   fun e s => (decode_int_safe e s).1,
   fun e s => (decode_bytestr_safe e s).1⟩

end Bencode
